import Mathlib

/-!
Verification of the object-storage service layer of the nexus-rag-backend
repository (`src/services/object_storage.py` and
`src/api/v1/endpoints/documents.py`).

The Python code is shallowly embedded: pure string manipulation becomes pure
Lean functions over `String` (whose `data` field is the list of characters),
and the stateful bucket operations become explicit state passing over a model
bucket (`List S3Object`) together with a trace of the remote requests that the
service issues.  Python `str.strip`, `str.split`, truthiness of optional
strings, and negative-capable list slicing are each modelled by a dedicated
helper so that the embedded service code mirrors the source line by line.
-/

/-- Python `str.strip()` whitespace test for the ASCII whitespace characters
(space, tab, newline, carriage return, vertical tab, form feed). -/
def pyIsSpace (c : Char) : Bool :=
  c == ' ' || c == '\t' || c == '\n' || c == '\r' || c == '\x0b' || c == '\x0c'

/-- Python `str.strip(chars)`: drop the characters satisfying `p` from both
ends of the list. -/
def pyStripChars (p : Char → Bool) (l : List Char) : List Char :=
  ((l.dropWhile p).reverse.dropWhile p).reverse

/-- Python `s.strip("/")` lifted to `String`. -/
def stripSlashes (s : String) : String :=
  ⟨pyStripChars (fun c => c == '/') s.data⟩

/-- Python `str.strip()` (default whitespace strip) lifted to `String`. -/
def pyStrip (s : String) : String :=
  ⟨pyStripChars pyIsSpace s.data⟩

/-- Auxiliary worker for Python `str.split(sep)` with a one-character
separator: `cur` is the (reversed) current chunk. -/
def pySplitAux (sep : Char) : List Char → List Char → List (List Char)
  | [], cur => [cur.reverse]
  | c :: rest, cur =>
    if c == sep then cur.reverse :: pySplitAux sep rest []
    else pySplitAux sep rest (c :: cur)

/-- Python `str.split(sep)` for a one-character separator; the result is
never empty (`"".split("/") == [""]`). -/
def pySplit (sep : Char) (l : List Char) : List (List Char) :=
  pySplitAux sep l []

/-- Python truthiness of an `Optional[str]` value: `None` and `""` are falsy. -/
def pyTruthy : Option String → Bool
  | some s => s != ""
  | none => false

/-- Python list slicing `l[:n]` where `n` may be negative. -/
def pySliceTo (n : Int) (l : List α) : List α :=
  if 0 ≤ n then l.take n.toNat else l.take (l.length - (-n).toNat)

/-- The character class `[A-Za-z0-9_.-]` kept by the sanitizing regex in
`ObjectStorageService._sanitize_filename`. -/
def isAllowedKeyChar (c : Char) : Bool :=
  c.isAlpha || c.isDigit || c == '_' || c == '.' || c == '-'

/-- `ObjectStorageService._sanitize_filename`: strip surrounding whitespace,
turn backslashes into slashes and keep the last path segment, replace every
character outside `[A-Za-z0-9_.-]` with an underscore, and fall back to
`"file"` when the result is empty. -/
def sanitize_filename (filename : String) : String :=
  let base := pyStripChars pyIsSpace filename.data
  let base := base.map fun c => if c == '\\' then '/' else c
  let base := (pySplit '/' base).getLastD []
  let base := base.map fun c => if isAllowedKeyChar c then c else '_'
  if base.isEmpty then "file" else ⟨base⟩

/-- `ObjectStorageService.build_key`: sanitize the filename; when the prefix
argument is truthy (Python `if prefix:`), strip its surrounding slashes and
join with a slash. -/
def build_key (filename : String) (pfx : Option String) : String :=
  let safe_name := sanitize_filename filename
  match pfx with
  | some p => if p != "" then stripSlashes p ++ "/" ++ safe_name else safe_name
  | none => safe_name

/-- The last slash-separated segment of a character list, written the way the
specification describes it ("keeps only the last path segment"): the longest
slash-free suffix. -/
def lastSlashSegment (l : List Char) : List Char :=
  (l.reverse.takeWhile (fun c => c != '/')).reverse

/-- Key sanitization as the specification words it, used to check the code's
`_sanitize_filename` against the specification sentence. -/
def sanitizeSpec (filename : String) : String :=
  let stripped := pyStripChars pyIsSpace filename.data
  let slashed := stripped.map fun c => if c == '\\' then '/' else c
  let leaf := lastSlashSegment slashed
  let cleaned := leaf.map fun c => if isAllowedKeyChar c then c else '_'
  if cleaned.isEmpty then "file" else ⟨cleaned⟩

/-- Key building as the specification words it ("if prefix given, strips its
leading/trailing slashes and joins as prefix/sanitized_name"), with the same
reading of "given" as the code uses (a present, non-empty string). -/
def buildKeySpec (filename : String) (pfx : Option String) : String :=
  match pfx with
  | some p =>
    if p != "" then stripSlashes p ++ "/" ++ sanitizeSpec filename
    else sanitizeSpec filename
  | none => sanitizeSpec filename

deriving instance DecidableEq for Except

/-- The domain error type raised by the service
(`ObjectStorageError(message)`). -/
structure ObjectStorageError where
  message : String
deriving DecidableEq

/-- An object stored in the bucket (the fields of the bucket's own records
that the service reads: key and size). -/
structure S3Object where
  key : String
  size : Nat
deriving DecidableEq

/-- The parameters of one `list_objects_v2` request as the service builds it
(`Prefix` and `ContinuationToken` are omitted when falsy). -/
structure ListRequest where
  pfxParam : Option String
  maxKeysParam : Int
  tokenParam : Option Nat
deriving DecidableEq

/-- S3 `Prefix` filtering: a key matches when the prefix parameter is absent
or is a leading substring of the key. -/
def keyMatches (pfxParam : Option String) (k : String) : Bool :=
  match pfxParam with
  | none => true
  | some p => p.data.isPrefixOf k.data

/-- The objects of the bucket that a given `Prefix` parameter selects, in
bucket order. -/
def s3MatchingObjects (bucket : List S3Object) (pfxParam : Option String) :
    List S3Object :=
  bucket.filter fun o => keyMatches pfxParam o.key

/-- One page returned by the bucket for a `list_objects_v2` request. -/
structure ListV2Response where
  contents : List S3Object
  isTruncated : Bool
  nextToken : Nat

/-- The bucket's `list_objects_v2` semantics: starting from the continuation
offset, return at most `MaxKeys` matching objects in bucket order, report
truncation, and hand back the next continuation offset. -/
def s3ListObjectsV2 (bucket : List S3Object) (req : ListRequest) :
    ListV2Response :=
  let m := s3MatchingObjects bucket req.pfxParam
  let start := req.tokenParam.getD 0
  let page := (m.drop start).take req.maxKeysParam.toNat
  { contents := page
    isTruncated := decide (start + page.length < m.length)
    nextToken := start + page.length }

/-- Result of `ObjectStorageService.list_objects`: the returned objects and
the trace of requests issued to the bucket. -/
structure ListResult where
  objects : List S3Object
  requests : List ListRequest
deriving DecidableEq

/-- The `clean_prefix = prefix.strip("/") if prefix else None` line of
`list_objects`. -/
def cleanedPfx (pfx : Option String) : Option String :=
  match pfx with
  | some p => if p != "" then some (stripSlashes p) else none
  | none => none

/-- The `request_params` dictionary built on each loop iteration of
`list_objects` (`Prefix` and `ContinuationToken` only included when truthy). -/
def buildListRequest (cleanPfx : Option String) (effMax : Int)
    (token : Option Nat) : ListRequest :=
  { pfxParam := if pyTruthy cleanPfx then cleanPfx else none
    maxKeysParam := effMax
    tokenParam := token }

/-- The `while True:` pagination loop of `list_objects`.  The fuel argument
only bounds the recursion; the entry point always supplies enough fuel for
the loop to run to its `break`. -/
def list_objects_go (bucket : List S3Object) (cleanPfx : Option String)
    (effMax mk : Int) :
    Nat → List S3Object → Option Nat → List ListRequest →
      List S3Object × List ListRequest
  | 0, objects, _, reqs => (objects, reqs)
  | fuel + 1, objects, token, reqs =>
    let req : ListRequest := buildListRequest cleanPfx effMax token
    let resp := s3ListObjectsV2 bucket req
    let objects2 := objects ++ resp.contents
    let reqs2 := reqs ++ [req]
    if resp.isTruncated = false ∨ mk ≤ (objects2.length : Int) then
      (objects2, reqs2)
    else
      list_objects_go bucket cleanPfx effMax mk fuel objects2
        (some resp.nextToken) reqs2

/-- `ObjectStorageService.list_objects`: clamp the page size to
`max(1, min(max_keys, 1000))`, normalize the prefix, paginate, and return
`objects[:max_keys]`. -/
def list_objects (bucket : List S3Object) (pfx : Option String)
    (max_keys : Int) : ListResult :=
  let effectiveMaxKeys : Int := max 1 (min max_keys 1000)
  let cleanPfx : Option String := cleanedPfx pfx
  let r := list_objects_go bucket cleanPfx effectiveMaxKeys max_keys
    (bucket.length + 1) [] none []
  { objects := pySliceTo max_keys r.1, requests := r.2 }

/-- The `Prefix` request parameter that `list_objects` ends up sending for a
given `prefix` argument (absent when the argument or its slash-stripped form
is falsy). -/
def listPfxParam (pfx : Option String) : Option String :=
  match pfx with
  | some p =>
    if p != "" && stripSlashes p != "" then some (stripSlashes p) else none
  | none => none

/-- A remote request recorded by the stateful operations. -/
inductive StorageRequest where
  | listV2 : ListRequest → StorageRequest
  | deleteObjs : List String → StorageRequest
  | putObject : String → Nat → String → List (String × String) → StorageRequest
deriving DecidableEq

/-- Result of `ObjectStorageService.delete_objects`: the returned count, the
bucket afterwards, and the trace of requests issued. -/
structure DeleteObjectsResult where
  count : Nat
  bucket : List S3Object
  requests : List StorageRequest
deriving DecidableEq

/-- `ObjectStorageService.delete_objects`: drop falsy keys, return `0` with
no remote call when nothing remains, otherwise issue one bulk delete (the
bucket removes every object whose key is in the request) and return the
number of keys submitted. -/
def delete_objects (bucket : List S3Object) (keys : List String) :
    DeleteObjectsResult :=
  let key_list := keys.filter fun k => k != ""
  if key_list.isEmpty then
    { count := 0, bucket := bucket, requests := [] }
  else
    { count := key_list.length
      bucket := bucket.filter fun o => !(key_list.contains o.key)
      requests := [.deleteObjs key_list] }

/-- Result of `ObjectStorageService.delete_prefix`. -/
structure DeletePrefixResult where
  outcome : Except ObjectStorageError Nat
  bucket : List S3Object
  requests : List StorageRequest
deriving DecidableEq

/-- The `while True:` list-and-delete loop of `delete_prefix`.  As with the
listing loop, the fuel only bounds recursion and the entry point supplies
enough of it. -/
def delete_prefix_go (np : String) :
    Nat → List S3Object → Nat → List StorageRequest →
      Nat × List S3Object × List StorageRequest
  | 0, b, total, reqs => (total, b, reqs)
  | fuel + 1, b, total, reqs =>
    let lr := list_objects b (some np) 1000
    let reqs2 := reqs ++ lr.requests.map StorageRequest.listV2
    if lr.objects.isEmpty then (total, b, reqs2)
    else
      let dr := delete_objects b (lr.objects.map S3Object.key)
      let reqs3 := reqs2 ++ dr.requests
      let total2 := total + dr.count
      if lr.objects.length < 1000 then (total2, dr.bucket, reqs3)
      else delete_prefix_go np fuel dr.bucket total2 reqs3

/-- `ObjectStorageService.delete_prefix`: reject a prefix that is empty after
stripping slashes, otherwise repeatedly list up to 1000 objects under the
prefix and bulk-delete each batch, accumulating the deleted count. -/
def delete_prefix (bucket : List S3Object) (p : String) : DeletePrefixResult :=
  let normalized := stripSlashes p
  if normalized = "" then
    { outcome := .error ⟨"El prefijo proporcionado no es válido."⟩
      bucket := bucket
      requests := [] }
  else
    let r := delete_prefix_go normalized (bucket.length + 1) bucket 0 []
    { outcome := .ok r.1, bucket := r.2.1, requests := r.2.2 }

/-- The static service configuration read from settings that the modelled
operations consume. -/
structure ServiceConfig where
  bucketName : String
  publicBaseUrl : Option String
deriving DecidableEq

/-- `ObjectStorageService._build_public_url`. -/
def build_public_url (cfg : ServiceConfig) (key : String) : Option String :=
  match cfg.publicBaseUrl with
  | some base => if base != "" then some (base ++ "/" ++ key) else none
  | none => none

/-- `ObjectStorageService._prepare_metadata`: string metadata plus a
defaulted `original_filename` entry. -/
def prepare_metadata (metadata : List (String × String))
    (original_filename : Option String) : List (String × String) :=
  match original_filename with
  | some f =>
    if f != "" && !(metadata.any fun kv => kv.1 == "original_filename") then
      metadata ++ [("original_filename", f)]
    else metadata
  | none => metadata

/-- The incoming `UploadFile` as the service reads it: an optional filename,
the byte content, and an optional declared content type. -/
structure UploadFileModel where
  filename : Option String
  content : List Nat
  content_type : Option String
deriving DecidableEq

/-- The `ObjectStorageUploadResult` dataclass. -/
structure ObjectStorageUploadResult where
  key : String
  bucket : String
  size : Nat
  etag : Option String
  url : Option String
deriving DecidableEq

/-- Result of `ObjectStorageService.upload_file`: the returned value or the
raised error, the bucket afterwards, and the trace of requests issued. -/
structure UploadOutcome where
  result : Except ObjectStorageError ObjectStorageUploadResult
  bucket : List S3Object
  requests : List StorageRequest
deriving DecidableEq

/-- `ObjectStorageService.upload_file`: reject a falsy filename, resolve the
destination key (`destination_path or build_key(filename)`), read the
content, reject empty content, and only then issue the single `put_object`
write (which overwrites any object already stored under the key). -/
def upload_file (cfg : ServiceConfig) (file : UploadFileModel)
    (destination_path : Option String) (metadata : List (String × String))
    (bucket : List S3Object) : UploadOutcome :=
  if !(pyTruthy file.filename) then
    { result := .error ⟨"El archivo proporcionado no tiene nombre válido."⟩
      bucket := bucket
      requests := [] }
  else
    let fname := file.filename.getD ""
    let key :=
      match destination_path with
      | some d => if d != "" then d else build_key fname none
      | none => build_key fname none
    let safe_metadata := prepare_metadata metadata (some fname)
    let content := file.content
    let size := content.length
    if size = 0 then
      { result := .error ⟨"El archivo está vacío. Nada que subir al bucket."⟩
        bucket := bucket
        requests := [] }
    else
      let content_type :=
        match file.content_type with
        | some t => if t != "" then t else "application/octet-stream"
        | none => "application/octet-stream"
      { result := .ok
          { key := key
            bucket := cfg.bucketName
            size := size
            etag := none
            url := build_public_url cfg key }
        bucket := (bucket.filter fun o => o.key != key) ++ [⟨key, size⟩]
        requests := [.putObject key size content_type safe_metadata] }

/-- `_document_prefix` in the documents endpoint module. -/
def docPrefixFor (document_id : String) : String :=
  "documents/" ++ document_id

/-- The HTTP-level outcome of `DELETE /api/v1/documents/{document_id}`. -/
inductive DeleteDocumentResponse where
  | notFound
  | ok : String → DeleteDocumentResponse
  | serverError : String → DeleteDocumentResponse
deriving DecidableEq

/-- The `delete_document` endpoint handler: delete everything under
`documents/<document_id>`, answer 404 when the deleted count is zero, a
success message otherwise, and map a storage error to a server error. -/
def delete_document (document_id : String) (bucket : List S3Object) :
    DeleteDocumentResponse × List S3Object :=
  let r := delete_prefix bucket (docPrefixFor document_id)
  match r.outcome with
  | .error e => (.serverError e.message, r.bucket)
  | .ok n =>
    if n = 0 then (.notFound, r.bucket)
    else (.ok "Document deleted successfully", r.bucket)

/-- The per-request bound that `delete_prefix` keeps: every listing asks for
at most 1000 keys and every bulk delete carries at most 1000 keys. -/
def requestWithinLimits : StorageRequest → Prop
  | .listV2 r => r.maxKeysParam = 1000
  | .deleteObjs ks => ks.length ≤ 1000
  | .putObject _ _ _ _ => True

theorem dropWhile_idem (p : α → Bool) (l : List α) :
    (l.dropWhile p).dropWhile p = l.dropWhile p := by
  induction l with
  | nil => rfl
  | cons a t ih =>
    cases h : p a with
    | false => simp [List.dropWhile_cons, h]
    | true => simp [List.dropWhile_cons, h, ih]

theorem dropWhile_all_false {p : α → Bool} {l : List α}
    (h : ∀ x ∈ l, p x = false) : l.dropWhile p = l := by
  cases l with
  | nil => rfl
  | cons a t => simp [List.dropWhile_cons, h a (List.mem_cons_self a t)]

theorem dropWhile_ne_nil_of_mem {p : α → Bool} {l : List α} {x : α}
    (hx : x ∈ l) (hpx : p x = false) : l.dropWhile p ≠ [] := by
  induction l with
  | nil => cases hx
  | cons a t ih =>
    cases h : p a with
    | false => simp [List.dropWhile_cons, h]
    | true =>
      rcases List.mem_cons.mp hx with rfl | hxt
      · rw [hpx] at h; cases h
      · simp only [List.dropWhile_cons, h, if_true]
        exact ih hxt

theorem pyStripChars_eq_self {p : Char → Bool} {l : List Char}
    (h : ∀ c ∈ l, p c = false) : pyStripChars p l = l := by
  unfold pyStripChars
  rw [dropWhile_all_false h,
    dropWhile_all_false (fun c hc => h c (List.mem_reverse.mp hc)),
    List.reverse_reverse]

theorem pyStripChars_eq_nil {p : Char → Bool} {l : List Char}
    (h : ∀ c ∈ l, p c = true) : pyStripChars p l = [] := by
  unfold pyStripChars
  rw [List.dropWhile_eq_nil_iff.mpr h]
  rfl

theorem pyStripChars_ne_nil_of_head {p : Char → Bool} {c : Char} {t : List Char}
    (hc : p c = false) : pyStripChars p (c :: t) ≠ [] := by
  unfold pyStripChars
  intro h
  have h2 : ((c :: t).dropWhile p).reverse.dropWhile p = [] := by
    simpa using congrArg List.reverse h
  rw [List.dropWhile_cons, hc] at h2
  simp only [if_false, Bool.false_eq_true] at h2
  exact dropWhile_ne_nil_of_mem (x := c) (by simp) hc h2

theorem dropWhile_cons_false {p : α → Bool} : ∀ {l : List α} {a : α} {t : List α},
    l.dropWhile p = a :: t → p a = false := by
  intro l
  induction l with
  | nil => intro a t h; cases h
  | cons b l' ih =>
    intro a t h
    rw [List.dropWhile_cons] at h
    by_cases hb : p b = true
    · rw [if_pos hb] at h; exact ih h
    · rw [if_neg hb] at h
      injection h with h1 h2
      subst h1
      exact Bool.eq_false_iff.mpr hb

theorem pyStripChars_idem (p : Char → Bool) (l : List Char) :
    pyStripChars p (pyStripChars p l) = pyStripChars p l := by
  unfold pyStripChars
  have hstep1 : ((l.dropWhile p).reverse.dropWhile p).reverse.dropWhile p
      = ((l.dropWhile p).reverse.dropWhile p).reverse := by
    cases hdr : ((l.dropWhile p).reverse.dropWhile p).reverse with
    | nil => rfl
    | cons c t =>
      have hsplit : (l.dropWhile p).reverse.takeWhile p
          ++ (l.dropWhile p).reverse.dropWhile p = (l.dropWhile p).reverse :=
        List.takeWhile_append_dropWhile p (l.dropWhile p).reverse
      have ha2 : l.dropWhile p
          = ((l.dropWhile p).reverse.dropWhile p).reverse
            ++ ((l.dropWhile p).reverse.takeWhile p).reverse := by
        conv_lhs => rw [← List.reverse_reverse (l.dropWhile p), ← hsplit]
        rw [List.reverse_append]
      have hfull : l.dropWhile p
          = c :: (t ++ ((l.dropWhile p).reverse.takeWhile p).reverse) := by
        conv_lhs => rw [ha2, hdr]
        rfl
      have hc : p c = false := dropWhile_cons_false hfull
      rw [List.dropWhile_cons, hc]
      simp
  rw [hstep1, List.reverse_reverse, dropWhile_idem]

theorem stripSlashes_idem (s : String) :
    stripSlashes (stripSlashes s) = stripSlashes s :=
  String.ext (pyStripChars_idem _ s.data)

theorem takeWhile_append_stop {p : α → Bool} {b : α} (hb : p b = false)
    (xs ys : List α) : (xs ++ b :: ys).takeWhile p = xs.takeWhile p := by
  induction xs with
  | nil => simp [List.takeWhile_cons, hb]
  | cons a t ih =>
    cases h : p a with
    | false => simp [List.takeWhile_cons, h]
    | true => simp [List.takeWhile_cons, h, ih]

theorem pySplitAux_ne_nil (sep : Char) :
    ∀ (rest cur : List Char), pySplitAux sep rest cur ≠ [] := by
  intro rest
  induction rest with
  | nil => intro cur; simp [pySplitAux]
  | cons c r ih =>
    intro cur
    unfold pySplitAux
    by_cases h : (c == sep) = true
    · simp [h]
    · rw [if_neg h]
      exact ih _

theorem pySplitAux_getLastD (sep : Char) :
    ∀ (rest cur : List Char), (∀ c ∈ cur, (c == sep) = false) →
      (pySplitAux sep rest cur).getLastD [] =
        ((cur.reverse ++ rest).reverse.takeWhile (fun c => c != sep)).reverse := by
  intro rest
  induction rest with
  | nil =>
    intro cur hcur
    unfold pySplitAux
    rw [List.getLastD_cons]
    simp only [List.getLastD_nil, List.append_nil, List.reverse_reverse]
    rw [List.takeWhile_eq_self_iff.mpr ?_]
    · intro x hx
      simp [bne, hcur x hx]
  | cons c r ih =>
    intro cur hcur
    unfold pySplitAux
    by_cases h : (c == sep) = true
    · rw [if_pos h]
      rw [List.getLastD_cons]
      have hne := pySplitAux_ne_nil sep r []
      have hgl : (pySplitAux sep r []).getLastD cur.reverse
          = (pySplitAux sep r []).getLastD [] := by
        cases hpp : pySplitAux sep r [] with
        | nil => exact absurd hpp hne
        | cons x xs => rw [List.getLastD_cons, List.getLastD_cons]
      rw [hgl, ih [] (by intro d hd; cases hd)]
      have hcf : (c != sep) = false := by simp [bne, h]
      simp only [List.reverse_nil, List.nil_append]
      congr 1
      rw [List.reverse_append, List.reverse_cons, List.reverse_reverse,
        List.append_assoc, List.singleton_append]
      rw [takeWhile_append_stop (p := fun x => x != sep) (b := c) hcf]
    · rw [if_neg h]
      rw [ih (c :: cur) ?_]
      · congr 2
        rw [List.reverse_cons, List.append_assoc, List.singleton_append]
      · intro x hx
        rcases List.mem_cons.mp hx with rfl | hxc
        · exact Bool.eq_false_iff.mpr h
        · exact hcur x hxc

theorem pySplit_getLastD (sep : Char) (l : List Char) :
    (pySplit sep l).getLastD [] =
      (l.reverse.takeWhile (fun c => c != sep)).reverse := by
  have h := pySplitAux_getLastD sep l [] (by intro c hc; cases hc)
  simpa [pySplit] using h

theorem string_eq_empty_iff {s : String} : s = "" ↔ s.data = [] := by
  constructor
  · intro h; rw [h]
  · intro h; exact String.ext (by rw [h])

theorem string_data_append (s t : String) : (s ++ t).data = s.data ++ t.data :=
  rfl

theorem sanitize_filename_eq_spec (f : String) :
    sanitize_filename f = sanitizeSpec f := by
  simp only [sanitize_filename, sanitizeSpec, lastSlashSegment, pySplit_getLastD]

theorem build_key_eq_spec (f : String) (pfx : Option String) :
    build_key f pfx = buildKeySpec f pfx := by
  cases pfx with
  | none => simpa [build_key, buildKeySpec] using sanitize_filename_eq_spec f
  | some p => simp [build_key, buildKeySpec, sanitize_filename_eq_spec]

theorem pyIsSpace_eq_false_of_allowed {c : Char}
    (h : isAllowedKeyChar c = true) : pyIsSpace c = false := by
  cases hs : pyIsSpace c with
  | false => rfl
  | true =>
    have hcs : ((((c = ' ' ∨ c = '\t') ∨ c = '\n') ∨ c = '\x0d') ∨ c = '\x0b')
        ∨ c = '\x0c' := by
      simpa [pyIsSpace, Bool.or_eq_true, beq_iff_eq] using hs
    rcases hcs with ((((rfl | rfl) | rfl) | rfl) | rfl) | rfl <;>
      exact absurd h (by decide)

theorem backslash_eq_false_of_allowed {c : Char}
    (h : isAllowedKeyChar c = true) : (c == '\\') = false := by
  cases hb : (c == '\\') with
  | false => rfl
  | true =>
    have hc : c = '\\' := beq_iff_eq.mp hb
    subst hc
    exact absurd h (by decide)

theorem slash_eq_false_of_allowed {c : Char}
    (h : isAllowedKeyChar c = true) : (c == '/') = false := by
  cases hb : (c == '/') with
  | false => rfl
  | true =>
    have hc : c = '/' := beq_iff_eq.mp hb
    subst hc
    exact absurd h (by decide)

theorem map_eq_self_of {g : α → α} : ∀ {l : List α},
    (∀ x ∈ l, g x = x) → l.map g = l := by
  intro l
  induction l with
  | nil => intro _; rfl
  | cons a t ih =>
    intro h
    rw [List.map_cons, h a (List.mem_cons_self a t),
      ih fun x hx => h x (List.mem_cons_of_mem a hx)]

theorem sanitize_filename_fixed {f : String} (hne : f ≠ "")
    (hall : ∀ c ∈ f.data, isAllowedKeyChar c = true) :
    sanitize_filename f = f := by
  have hdata : f.data ≠ [] := fun h => hne (string_eq_empty_iff.mpr h)
  have h1 : pyStripChars pyIsSpace f.data = f.data :=
    pyStripChars_eq_self fun c hc => pyIsSpace_eq_false_of_allowed (hall c hc)
  have h2 : f.data.map (fun c => if c == '\\' then '/' else c) = f.data :=
    map_eq_self_of fun c hc => by
      rw [backslash_eq_false_of_allowed (hall c hc)]
      rfl
  have h3 : (pySplit '/' f.data).getLastD [] = f.data := by
    rw [pySplit_getLastD]
    rw [List.takeWhile_eq_self_iff.mpr ?_, List.reverse_reverse]
    intro x hx
    have hx2 := slash_eq_false_of_allowed (hall x (List.mem_reverse.mp hx))
    simp [bne, hx2]
  have h4 : f.data.map (fun c => if isAllowedKeyChar c then c else '_')
      = f.data :=
    map_eq_self_of fun c hc => by rw [hall c hc]; rfl
  simp only [sanitize_filename]
  rw [h1, h2, h3, h4]
  simp only [List.isEmpty_iff, hdata, if_false]

theorem sanitize_filename_all_allowed (f : String) :
    ∀ c ∈ (sanitize_filename f).data, isAllowedKeyChar c = true := by
  intro c hc
  simp only [sanitize_filename] at hc
  split at hc
  · exact (by decide : ∀ x ∈ "file".data, isAllowedKeyChar x = true) c hc
  · rcases List.mem_map.mp hc with ⟨a, _, rfl⟩
    by_cases ha : isAllowedKeyChar a = true
    · rw [if_pos ha]; exact ha
    · rw [if_neg ha]; decide

theorem sanitize_filename_ne_empty (f : String) : sanitize_filename f ≠ "" := by
  simp only [sanitize_filename]
  split
  · decide
  · rename_i hb
    intro h
    apply hb
    rw [List.isEmpty_iff]
    exact congrArg String.data h

/-- C5: `build_key` sanitizes exactly as the specification describes (strip
surrounding whitespace, backslashes to slashes, keep the last path segment,
replace characters outside [A-Za-z0-9_.-] with underscores, fall back to
"file", join a slash-stripped prefix with a slash), and the specification's
worked example evaluates as stated. -/
theorem c5_build_key_matches_spec :
    build_key "My Report (Final).pdf" (some "documents/abc-123")
        = "documents/abc-123/My_Report__Final_.pdf"
    ∧ ∀ (filename : String) (pfx : Option String),
        build_key filename pfx = buildKeySpec filename pfx :=
  ⟨by decide, build_key_eq_spec⟩

/-- C6 counterexample: the empty filename consists only of characters in
[A-Za-z0-9_.-] (vacuously), yet `build_key` maps it to "file" rather than
returning it unchanged. -/
theorem c6_counterexample :
    "".data.all isAllowedKeyChar = true ∧ build_key "" none = "file"
      ∧ ("file" : String) ≠ "" := by decide

/-- C6 (amended): `build_key` without a prefix returns every non-empty
already-sanitized filename unchanged, applying `build_key` twice equals
applying it once for every filename, and `build_key` always returns a
non-empty key. -/
theorem c6_build_key_idempotent (f : String) :
    (f ≠ "" → (∀ c ∈ f.data, isAllowedKeyChar c = true) →
      build_key f none = f)
    ∧ build_key (build_key f none) none = build_key f none
    ∧ ∀ pfx, build_key f pfx ≠ "" := by
  refine ⟨?_, ?_, ?_⟩
  · intro hne hall
    exact sanitize_filename_fixed hne hall
  · exact sanitize_filename_fixed (sanitize_filename_ne_empty f)
      (sanitize_filename_all_allowed f)
  · intro pfx
    cases pfx with
    | none => exact sanitize_filename_ne_empty f
    | some p =>
      by_cases hp : (p != "") = true
      · simp only [build_key, hp, if_true]
        intro h
        rw [string_eq_empty_iff, string_data_append, string_data_append] at h
        simp at h
      · simp only [build_key, hp]
        simp only [Bool.false_eq_true, if_false]
        exact sanitize_filename_ne_empty f

/-- Witness for C6 at the concrete sanitized filename "a.txt". -/
theorem c6_build_key_idempotent_witness :
    build_key "a.txt" none = "a.txt"
    ∧ build_key (build_key "a.txt" none) none = build_key "a.txt" none
    ∧ build_key "a.txt" (some "p") ≠ "" :=
  ⟨(c6_build_key_idempotent "a.txt").1 (by decide) (by decide),
   (c6_build_key_idempotent "a.txt").2.1,
   (c6_build_key_idempotent "a.txt").2.2 (some "p")⟩

/-- C10: for every filename and every non-empty prefix consisting solely of
slashes, the truthiness test passes before the slashes are stripped, so the
produced key is "/" followed by the sanitized filename (empty prefix
segment, leading slash). -/
theorem c10_slash_only_pfx_key (f p : String) (hne : p ≠ "")
    (hslash : ∀ c ∈ p.data, c = '/') :
    build_key f (some p) = "/" ++ sanitize_filename f := by
  have hstrip : stripSlashes p = "" := by
    rw [string_eq_empty_iff]
    exact pyStripChars_eq_nil fun c hc => by rw [hslash c hc]; rfl
  have hp : (p != "") = true := bne_iff_ne.mpr hne
  simp only [build_key, hp, if_true, hstrip]
  apply String.ext
  rw [string_data_append, string_data_append, string_data_append]
  rfl

/-- Witness for C10 at the slash-only prefix "/". -/
theorem c10_slash_only_pfx_key_witness :
    build_key "a" (some "/") = "/" ++ sanitize_filename "a" :=
  c10_slash_only_pfx_key "a" "/" (by decide) (by decide)

/-- C1 counterexample: the whitespace-only (hence non-empty) prefix " " is
not rejected — `delete_prefix` returns a count of 0 and has already issued a
listing request against the bucket. -/
theorem c1_counterexample :
    (∀ c ∈ (" " : String).data, pyIsSpace c = true)
    ∧ (" " : String) ≠ ""
    ∧ ( delete_prefix [] " ").outcome = .ok 0
    ∧ ( delete_prefix [] " ").requests
        = [.listV2 { pfxParam := some " ", maxKeysParam := 1000,
                     tokenParam := none }] := by
  decide

/-- C1 (amended): `delete_prefix` raises the storage error before issuing
any list or delete request exactly for the prefixes its guard rejects —
those that are empty after stripping slashes, i.e. empty or slash-only
strings (whitespace-only prefixes are not rejected). -/
theorem c1_all_slash_rejected (b : List S3Object) (p : String)
    (h : ∀ c ∈ p.data, c = '/') :
    delete_prefix b p =
      { outcome := .error ⟨"El prefijo proporcionado no es válido."⟩
        bucket := b
        requests := [] } := by
  have hstrip : stripSlashes p = "" := by
    rw [string_eq_empty_iff]
    exact pyStripChars_eq_nil fun c hc => by rw [h c hc]; rfl
  simp [ delete_prefix, hstrip]

/-- Witness for C1 at the slash-only prefix "/". -/
theorem c1_all_slash_rejected_witness :
    delete_prefix [⟨"a", 1⟩] "/" =
      { outcome := .error ⟨"El prefijo proporcionado no es válido."⟩
        bucket := [⟨"a", 1⟩]
        requests := [] } :=
  c1_all_slash_rejected [⟨"a", 1⟩] "/" (by decide)

theorem cleanedPfx_param (pfx : Option String) :
    (if pyTruthy (cleanedPfx pfx) then cleanedPfx pfx else none)
      = listPfxParam pfx := by
  cases pfx with
  | none => rfl
  | some p =>
    by_cases hp : (p != "") = true
    · by_cases hs : (stripSlashes p != "") = true
      · simp [cleanedPfx, pyTruthy, listPfxParam, hp, hs]
      · simp [cleanedPfx, pyTruthy, listPfxParam, hp, hs]
    · simp [cleanedPfx, pyTruthy, listPfxParam, hp]

theorem buildListRequest_pfxParam (cp : Option String) (e : Int)
    (t : Option Nat) :
    (buildListRequest cp e t).pfxParam = if pyTruthy cp then cp else none := rfl

theorem buildListRequest_maxKeysParam (cp : Option String) (e : Int)
    (t : Option Nat) : (buildListRequest cp e t).maxKeysParam = e := rfl

theorem buildListRequest_tokenParam (cp : Option String) (e : Int)
    (t : Option Nat) : (buildListRequest cp e t).tokenParam = t := rfl

theorem list_objects_go_reqs_extends (bucket : List S3Object)
    (cp : Option String) (e mk : Int) :
    ∀ (fuel : Nat) (objs : List S3Object) (token : Option Nat)
      (reqs : List ListRequest),
      ∃ t, (list_objects_go bucket cp e mk fuel objs token reqs).2
        = reqs ++ t := by
  intro fuel
  induction fuel with
  | zero =>
    intro objs token reqs
    exact ⟨[], by simp [list_objects_go]⟩
  | succ n ih =>
    intro objs token reqs
    simp only [list_objects_go]
    split
    · exact ⟨_, rfl⟩
    · obtain ⟨t, ht⟩ := ih _ _ (reqs ++ [buildListRequest cp e token])
      refine ⟨[buildListRequest cp e token] ++ t, ?_⟩
      rw [ht, List.append_assoc]

theorem list_objects_go_reqs_mem (bucket : List S3Object)
    (cp : Option String) (e mk : Int) :
    ∀ (fuel : Nat) (objs : List S3Object) (token : Option Nat)
      (reqs : List ListRequest) (r : ListRequest),
      r ∈ (list_objects_go bucket cp e mk fuel objs token reqs).2 →
      r ∈ reqs ∨ (r.maxKeysParam = e
        ∧ r.pfxParam = (if pyTruthy cp then cp else none)) := by
  intro fuel
  induction fuel with
  | zero =>
    intro _ _ reqs r hr
    exact Or.inl (by simpa [list_objects_go] using hr)
  | succ n ih =>
    intro objs token reqs r hr
    simp only [list_objects_go] at hr
    split at hr
    · rcases List.mem_append.mp hr with h | h
      · exact Or.inl h
      · rcases List.mem_singleton.mp h with rfl
        exact Or.inr ⟨rfl, rfl⟩
    · rcases ih _ _ _ _ hr with h | h
      · rcases List.mem_append.mp h with h2 | h2
        · exact Or.inl h2
        · rcases List.mem_singleton.mp h2 with rfl
          exact Or.inr ⟨rfl, rfl⟩
      · exact Or.inr h

theorem list_objects_go_ne (bucket : List S3Object) (cp : Option String)
    (e mk : Int) (n : Nat) (objs : List S3Object) (token : Option Nat)
    (reqs : List ListRequest) :
    (list_objects_go bucket cp e mk (n + 1) objs token reqs).2 ≠ [] := by
  simp only [list_objects_go]
  split
  · simp
  · obtain ⟨t, ht⟩ := list_objects_go_reqs_extends bucket cp e mk n _ _
      (reqs ++ [buildListRequest cp e token])
    rw [ht]
    simp

theorem list_objects_go_objects (bucket : List S3Object) (cp : Option String)
    (e mk : Int) (m : List S3Object) (he : 1 ≤ e)
    (hm : m = s3MatchingObjects bucket (if pyTruthy cp then cp else none)) :
    ∀ (fuel start : Nat) (token : Option Nat) (reqs : List ListRequest),
      token.getD 0 = start → start ≤ m.length → m.length < start + fuel →
      ∃ s2, s2 ≤ m.length
        ∧ (list_objects_go bucket cp e mk fuel (m.take start) token reqs).1
            = m.take s2
        ∧ (s2 = m.length ∨ mk ≤ (s2 : Int)) := by
  intro fuel
  induction fuel with
  | zero =>
    intro start token reqs htok hstart hfuel
    exact absurd hfuel (by omega)
  | succ n ih =>
    intro start token reqs htok hstart hfuel
    simp only [list_objects_go, s3ListObjectsV2, buildListRequest_pfxParam,
      buildListRequest_maxKeysParam, buildListRequest_tokenParam, ← hm, htok]
    have hplv : ((m.drop start).take e.toNat).length
        = min e.toNat (m.length - start) := by
      simp [List.length_take, List.length_drop]
    set pl := ((m.drop start).take e.toNat).length with hpl
    have hs1le : start + pl ≤ m.length := by omega
    have hobj : m.take start ++ (m.drop start).take e.toNat
        = m.take (start + pl) := by
      rw [List.take_add]
      congr 1
      rcases Nat.le_total e.toNat (m.length - start) with hle | hle
      · rw [hplv, min_eq_left hle]
      · rw [hplv, min_eq_right hle]
        rw [List.take_of_length_le (le_of_eq (List.length_drop _ _)),
          List.take_of_length_le (by rw [List.length_drop]; exact hle)]
    rw [hobj]
    have hlen : (m.take (start + pl)).length = start + pl := by
      rw [List.length_take, min_eq_left hs1le]
    rw [hlen]
    split
    · rename_i hcond
      refine ⟨start + pl, hs1le, rfl, ?_⟩
      rcases hcond with hnt | hmk2
      · left
        have hnlt := of_decide_eq_false hnt
        omega
      · right
        exact_mod_cast hmk2
    · rename_i hcond
      push_neg at hcond
      obtain ⟨hnt, hmk2⟩ := hcond
      have htr : start + pl < m.length := by
        have hdec : decide (start + pl < m.length) = true := by
          revert hnt
          cases decide (start + pl < m.length) <;> simp
        exact of_decide_eq_true hdec
      have hple : pl = e.toNat := by omega
      have hepos : 1 ≤ e.toNat := by omega
      exact ih (start + pl) (some (start + pl)) _ rfl (le_of_lt htr) (by omega)

theorem list_objects_spec (bucket : List S3Object) (pfx : Option String)
    (mk : Int) (hmk : 1 ≤ mk) :
    (list_objects bucket pfx mk).objects
        = (s3MatchingObjects bucket (listPfxParam pfx)).take mk.toNat
    ∧ (∀ r ∈ (list_objects bucket pfx mk).requests,
        r.maxKeysParam = min mk 1000 ∧ r.pfxParam = listPfxParam pfx)
    ∧ (list_objects bucket pfx mk).requests ≠ [] := by
  have hEff : max 1 (min mk 1000) = min mk 1000 :=
    max_eq_right (le_min hmk (by norm_num))
  have hmlen : (s3MatchingObjects bucket (listPfxParam pfx)).length
      ≤ bucket.length := List.length_filter_le _ _
  obtain ⟨s2, hs2le, hobj, hs2⟩ :=
    list_objects_go_objects bucket (cleanedPfx pfx) (max 1 (min mk 1000)) mk
      (s3MatchingObjects bucket (listPfxParam pfx))
      (le_max_left 1 (min mk 1000))
      (by rw [cleanedPfx_param])
      (bucket.length + 1) 0 none [] rfl (Nat.zero_le _) (by omega)
  rw [List.take_zero] at hobj
  refine ⟨?_, ?_, ?_⟩
  · show pySliceTo mk
      (list_objects_go bucket (cleanedPfx pfx) (max 1 (min mk 1000)) mk
        (bucket.length + 1) [] none []).1 = _
    rw [hobj, pySliceTo, if_pos (by omega)]
    rcases hs2 with rfl | hmk2
    · rw [List.take_length]
    · rw [List.take_take, min_eq_left (Int.toNat_le.mpr hmk2)]
  · intro r hr
    have hr2 := list_objects_go_reqs_mem bucket (cleanedPfx pfx)
      (max 1 (min mk 1000)) mk (bucket.length + 1) [] none [] r hr
    rcases hr2 with h | ⟨h1, h2⟩
    · cases h
    · rw [cleanedPfx_param] at h2
      exact ⟨hEff ▸ h1, h2⟩
  · exact list_objects_go_ne bucket (cleanedPfx pfx) (max 1 (min mk 1000)) mk
      bucket.length [] none []

/-- C3 counterexample: with `maxKeys = 0` the single request issued carries
`MaxKeys = 1` (the code clamps at `max(1, min(maxKeys, 1000))`), not
`min(0, 1000) = 0` as the claim states. -/
theorem c3_counterexample :
    (list_objects [⟨"a", 1⟩] none 0).requests.map ListRequest.maxKeysParam
        = [1]
    ∧ ¬ ((1 : Int) = min 0 1000) := by decide

/-- C3 (amended): for every prefix and every `maxKeys ≥ 1`, `list_objects`
issues at least one paginated request, each capped at `min(maxKeys, 1000)`
keys, and returns the first `maxKeys` objects the bucket yields under the
normalized prefix, in bucket order with no independent sorting (for
`maxKeys < 1` the per-request cap is clamped up to 1 instead). -/
theorem c3_list_objects_paginated (bucket : List S3Object)
    (pfx : Option String) (mk : Int) (hmk : 1 ≤ mk) :
    (list_objects bucket pfx mk).objects
        = (s3MatchingObjects bucket (listPfxParam pfx)).take mk.toNat
    ∧ (∀ r ∈ (list_objects bucket pfx mk).requests,
        r.maxKeysParam = min mk 1000)
    ∧ (list_objects bucket pfx mk).requests ≠ [] := by
  obtain ⟨h1, h2, h3⟩ := list_objects_spec bucket pfx mk hmk
  exact ⟨h1, fun r hr => (h2 r hr).1, h3⟩

/-- Witness for C3 on a concrete two-object bucket with `maxKeys = 1`. -/
theorem c3_list_objects_paginated_witness :
    (list_objects [⟨"a", 1⟩, ⟨"b", 2⟩] none 1).objects
        = (s3MatchingObjects [⟨"a", 1⟩, ⟨"b", 2⟩] (listPfxParam none)).take
            (1 : Int).toNat
    ∧ (∀ r ∈ (list_objects [⟨"a", 1⟩, ⟨"b", 2⟩] none 1).requests,
        r.maxKeysParam = min 1 1000)
    ∧ (list_objects [⟨"a", 1⟩, ⟨"b", 2⟩] none 1).requests ≠ [] :=
  c3_list_objects_paginated [⟨"a", 1⟩, ⟨"b", 2⟩] none 1 (by norm_num)

/-- C7: `delete_objects` on an empty key collection returns 0, issues no
remote request, and leaves the bucket unchanged. -/
theorem c7_delete_objects_empty_noop (bucket : List S3Object) :
    delete_objects bucket [] = ⟨0, bucket, []⟩ := rfl

/-- C9: `delete_objects` first discards empty-string keys and returns the
number of keys that remain — the count submitted in the bulk request, not
the number of objects actually removed (deleting a key absent from the
bucket still counts, as the last conjunct shows on an empty bucket) — and a
collection of only empty strings yields 0 with no remote call. -/
theorem c9_delete_objects_count (bucket : List S3Object) (keys : List String) :
    (delete_objects bucket keys).count
        = (keys.filter fun k => k != "").length
    ∧ ((keys.filter fun k => k != "") = [] →
        delete_objects bucket keys = ⟨0, bucket, []⟩)
    ∧ (delete_objects [] ["ghost"]).count = 1 := by
  refine ⟨?_, ?_, by decide⟩
  · simp only [delete_objects]
    split
    · rename_i h
      rw [List.isEmpty_iff] at h
      simp [h]
    · rfl
  · intro h
    simp only [delete_objects, h]
    rfl

/-- Witness for C9 on a collection of only empty strings. -/
theorem c9_delete_objects_count_witness :
    (delete_objects [⟨"a", 1⟩] ["", ""]).count
        = ((["", ""] : List String).filter fun k => k != "").length
    ∧ delete_objects [⟨"a", 1⟩] ["", ""] = ⟨0, [⟨"a", 1⟩], []⟩ :=
  ⟨(c9_delete_objects_count [⟨"a", 1⟩] ["", ""]).1,
   (c9_delete_objects_count [⟨"a", 1⟩] ["", ""]).2.1 (by decide)⟩

theorem keyMatches_ne_empty {np k : String} (hnp : np ≠ "")
    (h : keyMatches (some np) k = true) : k ≠ "" := by
  intro hk
  subst hk
  cases hd : np.data with
  | nil => exact hnp (string_eq_empty_iff.mpr hd)
  | cons a t =>
    rw [keyMatches, hd] at h
    simp [List.isPrefixOf] at h

theorem contains_eq_true_iff_mem {l : List String} {a : String} :
    l.contains a = true ↔ a ∈ l := by
  rw [List.contains_iff_exists_mem_beq]
  constructor
  · rintro ⟨x, hx, hbeq⟩
    rw [beq_iff_eq.mp hbeq]
    exact hx
  · intro h
    exact ⟨a, h, by simp⟩

theorem listPfxParam_some_normalized {np : String} (hnp : np ≠ "")
    (hid : stripSlashes np = np) : listPfxParam (some np) = some np := by
  simp only [listPfxParam]
  rw [hid, bne_iff_ne.mpr hnp]
  rfl

theorem contains_matching_keys_imp {np : String} {b : List S3Object} {n : Nat}
    {k : String}
    (hc : (((s3MatchingObjects b (some np)).take n).map S3Object.key).contains k
        = true) :
    keyMatches (some np) k = true := by
  rcases List.mem_map.mp (contains_eq_true_iff_mem.mp hc) with ⟨o, ho, rfl⟩
  exact (List.mem_filter.mp (List.take_subset n _ ho)).2

theorem filter_eq_drop_of_split {l : List α} {q : α → Bool} {n : Nat}
    (h1 : ∀ o ∈ l.take n, q o = false) (h2 : ∀ o ∈ l.drop n, q o = true) :
    l.filter q = l.drop n := by
  conv_lhs => rw [← List.take_append_drop n l]
  rw [List.filter_append]
  rw [List.filter_eq_nil_iff.mpr
    (fun o ho hq => by rw [h1 o ho] at hq; exact absurd hq (by decide))]
  rw [List.filter_eq_self.mpr h2, List.nil_append]

theorem delete_prefix_go_spec (np : String) (hnp : np ≠ "")
    (hid : stripSlashes np = np) :
    ∀ (fuel : Nat) (b : List S3Object) (total : Nat)
      (reqs : List StorageRequest),
      (b.map S3Object.key).Nodup →
      (s3MatchingObjects b (some np)).length < fuel * 1000 →
      ( delete_prefix_go np fuel b total reqs).1
          = total + (s3MatchingObjects b (some np)).length
      ∧ ( delete_prefix_go np fuel b total reqs).2.1
          = b.filter (fun o => !(keyMatches (some np) o.key))
      ∧ ∀ r ∈ ( delete_prefix_go np fuel b total reqs).2.2,
          r ∈ reqs ∨ requestWithinLimits r := by
  intro fuel
  induction fuel with
  | zero =>
    intro b total reqs hnd hfuel
    exact absurd hfuel (by omega)
  | succ n ih =>
    intro b total reqs hnd hfuel
    obtain ⟨hlo, hlreq, -⟩ := list_objects_spec b (some np) 1000 (by norm_num)
    rw [listPfxParam_some_normalized hnp hid] at hlo hlreq
    have hlo2 : (list_objects b (some np) 1000).objects
        = (s3MatchingObjects b (some np)).take 1000 := hlo
    have hlwithin : ∀ lreq ∈ (list_objects b (some np) 1000).requests,
        requestWithinLimits (StorageRequest.listV2 lreq) := by
      intro lreq hlr
      show lreq.maxKeysParam = 1000
      simpa using (hlreq lreq hlr).1
    simp only [delete_prefix_go, hlo2]
    by_cases hm0 : s3MatchingObjects b (some np) = []
    · have hemp : ((s3MatchingObjects b (some np)).take 1000).isEmpty = true := by
        rw [hm0]
        rfl
      rw [if_pos hemp]
      refine ⟨?_, ?_, ?_⟩
      · show total = total + (s3MatchingObjects b (some np)).length
        rw [hm0]
        rfl
      · show b = b.filter fun o => !(keyMatches (some np) o.key)
        have hall : ∀ o ∈ b, keyMatches (some np) o.key = false := by
          intro o ho
          have hno := List.filter_eq_nil_iff.mp hm0 o ho
          exact Bool.eq_false_iff.mpr hno
        exact (List.filter_eq_self.mpr fun o ho => by rw [hall o ho]; rfl).symm
      · intro r hr
        rcases List.mem_append.mp hr with h | h
        · exact Or.inl h
        · rcases List.mem_map.mp h with ⟨lreq, hlr, rfl⟩
          exact Or.inr (hlwithin lreq hlr)
    · have htake_ne : (s3MatchingObjects b (some np)).take 1000 ≠ [] := by
        intro hcontra
        rcases List.take_eq_nil_iff.mp hcontra with h | h
        · cases h
        · exact hm0 h
      have hemp : ¬ (((s3MatchingObjects b (some np)).take 1000).isEmpty = true) :=
        fun hh => htake_ne (List.isEmpty_iff.mp hh)
      rw [if_neg hemp]
      have hkeysne : ∀ k ∈ ((s3MatchingObjects b (some np)).take 1000).map
          S3Object.key, (k != "") = true := by
        intro k hk
        rcases List.mem_map.mp hk with ⟨o, ho, rfl⟩
        have hmatch := (List.mem_filter.mp (List.take_subset 1000 _ ho)).2
        exact bne_iff_ne.mpr (keyMatches_ne_empty hnp hmatch)
      have hdel : delete_objects b
          (((s3MatchingObjects b (some np)).take 1000).map S3Object.key)
          = { count := (((s3MatchingObjects b (some np)).take 1000).map
                S3Object.key).length
              bucket := b.filter fun o =>
                !((((s3MatchingObjects b (some np)).take 1000).map
                    S3Object.key).contains o.key)
              requests := [.deleteObjs (((s3MatchingObjects b
                (some np)).take 1000).map S3Object.key)] } := by
        simp only [delete_objects]
        rw [List.filter_eq_self.mpr hkeysne]
        rw [if_neg ?_]
        intro hh
        rw [List.isEmpty_iff, List.map_eq_nil_iff] at hh
        exact htake_ne hh
      rw [hdel]
      have hcount : (((s3MatchingObjects b (some np)).take 1000).map
          S3Object.key).length = ((s3MatchingObjects b (some np)).take
            1000).length := List.length_map _ _
      by_cases hlt : ((s3MatchingObjects b (some np)).take 1000).length < 1000
      · rw [if_pos hlt]
        have hml : (s3MatchingObjects b (some np)).length < 1000 := by
          have hlt2 := List.length_take 1000 (s3MatchingObjects b (some np))
          omega
        have htakeall : (s3MatchingObjects b (some np)).take 1000
            = s3MatchingObjects b (some np) :=
          List.take_of_length_le (by omega)
        refine ⟨?_, ?_, ?_⟩
        · show total + _ = total + _
          rw [hcount, htakeall]
        · show b.filter _ = b.filter _
          apply List.filter_congr
          intro o ho
          dsimp only
          have hcm : (((s3MatchingObjects b (some np)).take 1000).map
              S3Object.key).contains o.key = keyMatches (some np) o.key := by
            cases hmatch : keyMatches (some np) o.key with
            | true =>
              apply contains_eq_true_iff_mem.mpr
              rw [htakeall]
              exact List.mem_map_of_mem _ (List.mem_filter.mpr ⟨ho, hmatch⟩)
            | false =>
              cases hcont : (((s3MatchingObjects b (some np)).take 1000).map
                  S3Object.key).contains o.key with
              | false => rfl
              | true =>
                have := contains_matching_keys_imp hcont
                rw [this] at hmatch
                cases hmatch
          rw [hcm]
        · intro r hr
          rcases List.mem_append.mp hr with h | h
          · rcases List.mem_append.mp h with h2 | h2
            · exact Or.inl h2
            · rcases List.mem_map.mp h2 with ⟨lreq, hlr, rfl⟩
              exact Or.inr (hlwithin lreq hlr)
          · rcases List.mem_singleton.mp h with rfl
            refine Or.inr ?_
            show (((s3MatchingObjects b (some np)).take 1000).map
              S3Object.key).length ≤ 1000
            omega
      · rw [if_neg hlt]
        have hlen1000 : ((s3MatchingObjects b (some np)).take 1000).length
            = 1000 := by
          have hlt2 := List.length_take 1000 (s3MatchingObjects b (some np))
          omega
        have hm1000 : 1000 ≤ (s3MatchingObjects b (some np)).length := by
          have hlt2 := List.length_take 1000 (s3MatchingObjects b (some np))
          omega
        have hsub : (b.filter fun o =>
            !((((s3MatchingObjects b (some np)).take 1000).map
                S3Object.key).contains o.key)).Sublist b := List.filter_sublist b
        have hnd2 : ((b.filter fun o =>
            !((((s3MatchingObjects b (some np)).take 1000).map
                S3Object.key).contains o.key)).map S3Object.key).Nodup :=
          List.Nodup.sublist (hsub.map _) hnd
        have hmnd : ((s3MatchingObjects b (some np)).map S3Object.key).Nodup :=
          List.Nodup.sublist ((List.filter_sublist b).map _) hnd
        have hdisj : ∀ k ∈ ((s3MatchingObjects b (some np)).drop 1000).map
            S3Object.key,
            ¬ k ∈ ((s3MatchingObjects b (some np)).take 1000).map
              S3Object.key := by
          intro k hk1 hk2
          have hparts := hmnd
          rw [← List.take_append_drop 1000
            ((s3MatchingObjects b (some np)).map S3Object.key),
            List.nodup_append] at hparts
          rw [← List.map_take] at hparts
          rw [← List.map_drop] at hparts
          exact hparts.2.2 hk2 hk1
        have hfilterdrop : (s3MatchingObjects b (some np)).filter (fun o =>
            !((((s3MatchingObjects b (some np)).take 1000).map
                S3Object.key).contains o.key))
            = (s3MatchingObjects b (some np)).drop 1000 := by
          apply filter_eq_drop_of_split
          · intro o ho
            have hct : (((s3MatchingObjects b (some np)).take 1000).map
                S3Object.key).contains o.key = true :=
              contains_eq_true_iff_mem.mpr (List.mem_map_of_mem _ ho)
            rw [hct]
            rfl
          · intro o ho
            have hnc : (((s3MatchingObjects b (some np)).take 1000).map
                S3Object.key).contains o.key = false := by
              cases hc : (((s3MatchingObjects b (some np)).take 1000).map
                  S3Object.key).contains o.key with
              | false => rfl
              | true =>
                exact absurd (contains_eq_true_iff_mem.mp hc)
                  (hdisj o.key (List.mem_map_of_mem _ ho))
            rw [hnc]
            rfl
        have hmatch2 : s3MatchingObjects (b.filter fun o =>
            !((((s3MatchingObjects b (some np)).take 1000).map
                S3Object.key).contains o.key)) (some np)
            = (s3MatchingObjects b (some np)).drop 1000 := by
          show (b.filter _).filter _ = _
          rw [List.filter_filter]
          rw [← hfilterdrop]
          show _ = ((b.filter _).filter _)
          rw [List.filter_filter]
          apply List.filter_congr
          intro o ho
          dsimp only
          rw [Bool.and_comm]
        obtain ⟨ih1, ih2, ih3⟩ := ih (b.filter fun o =>
            !((((s3MatchingObjects b (some np)).take 1000).map
                S3Object.key).contains o.key))
          (total + (((s3MatchingObjects b (some np)).take 1000).map
            S3Object.key).length)
          (reqs ++ (list_objects b (some np) 1000).requests.map
              StorageRequest.listV2
            ++ [.deleteObjs (((s3MatchingObjects b (some np)).take 1000).map
              S3Object.key)])
          hnd2
          (by rw [hmatch2, List.length_drop]; omega)
        refine ⟨?_, ?_, ?_⟩
        · rw [ih1, hmatch2, List.length_drop, hcount, hlen1000]
          omega
        · rw [ih2]
          rw [List.filter_filter]
          apply List.filter_congr
          intro o ho
          dsimp only
          cases hmatch : keyMatches (some np) o.key with
          | true => rfl
          | false =>
            have hcont : (((s3MatchingObjects b (some np)).take 1000).map
                S3Object.key).contains o.key = false := by
              cases hc : (((s3MatchingObjects b (some np)).take 1000).map
                  S3Object.key).contains o.key with
              | false => rfl
              | true =>
                have := contains_matching_keys_imp hc
                rw [this] at hmatch
                cases hmatch
            rw [hcont]
            decide
        · intro r hr
          rcases ih3 r hr with h | h
          · rcases List.mem_append.mp h with h2 | h2
            · rcases List.mem_append.mp h2 with h3 | h3
              · exact Or.inl h3
              · rcases List.mem_map.mp h3 with ⟨lreq, hlr, rfl⟩
                exact Or.inr (hlwithin lreq hlr)
            · rcases List.mem_singleton.mp h2 with rfl
              refine Or.inr ?_
              show (((s3MatchingObjects b (some np)).take 1000).map
                S3Object.key).length ≤ 1000
              omega
          · exact Or.inr h

theorem delete_prefix_spec (b : List S3Object) (p : String)
    (hp : stripSlashes p ≠ "") (hnd : (b.map S3Object.key).Nodup) :
    ( delete_prefix b p).outcome
        = .ok (s3MatchingObjects b (some (stripSlashes p))).length
    ∧ ( delete_prefix b p).bucket
        = b.filter (fun o => !(keyMatches (some (stripSlashes p)) o.key))
    ∧ ∀ r ∈ ( delete_prefix b p).requests, requestWithinLimits r := by
  have hle : (s3MatchingObjects b (some (stripSlashes p))).length
      ≤ b.length := List.length_filter_le _ _
  obtain ⟨h1, h2, h3⟩ := delete_prefix_go_spec (stripSlashes p) hp
    (stripSlashes_idem p) (b.length + 1) b 0 [] hnd (by omega)
  have hred : delete_prefix b p =
      { outcome := .ok (( delete_prefix_go (stripSlashes p) (b.length + 1)
          b 0 []).1)
        bucket := ( delete_prefix_go (stripSlashes p) (b.length + 1)
          b 0 []).2.1
        requests := ( delete_prefix_go (stripSlashes p) (b.length + 1)
          b 0 []).2.2 } := by
    simp only [ delete_prefix, if_neg hp]
  rw [hred]
  refine ⟨?_, ?_, ?_⟩
  · show Except.ok _ = _
    rw [h1, Nat.zero_add]
  · exact h2
  · intro r hr
    rcases h3 r hr with h | h
    · cases h
    · exact h

/-- C4 counterexample: "/" is a non-empty prefix, yet `delete_prefix` raises
the storage error instead of listing and deleting under it. -/
theorem c4_counterexample :
    ("/" : String) ≠ ""
    ∧ ( delete_prefix [⟨"/x", 1⟩] "/").outcome
        = .error ⟨"El prefijo proporcionado no es válido."⟩ := by decide

/-- C4 (amended): for every prefix containing a non-slash character (so that
the slash-stripping guard passes) and every bucket whose keys are distinct
(the object-store invariant), `delete_prefix` deletes exactly the objects
under the normalized prefix in batches — each listing capped at 1000 keys
and each bulk delete carrying at most 1000 keys — and returns the total
number of objects deleted. -/
theorem c4_delete_prefix_batches (b : List S3Object) (p : String)
    (hp : stripSlashes p ≠ "") (hnd : (b.map S3Object.key).Nodup) :
    ( delete_prefix b p).outcome
        = .ok (s3MatchingObjects b (some (stripSlashes p))).length
    ∧ ( delete_prefix b p).bucket
        = b.filter (fun o => !(keyMatches (some (stripSlashes p)) o.key))
    ∧ ∀ r ∈ ( delete_prefix b p).requests, requestWithinLimits r :=
  delete_prefix_spec b p hp hnd

/-- Witness for C4 on a concrete two-object bucket. -/
theorem c4_delete_prefix_batches_witness :
    stripSlashes "docs" ≠ ""
    ∧ (([⟨"docs/a", 1⟩, ⟨"other/b", 2⟩] : List S3Object).map
        S3Object.key).Nodup
    ∧ ( delete_prefix [⟨"docs/a", 1⟩, ⟨"other/b", 2⟩] "docs").outcome
        = .ok (s3MatchingObjects [⟨"docs/a", 1⟩, ⟨"other/b", 2⟩]
            (some (stripSlashes "docs"))).length
    ∧ ( delete_prefix [⟨"docs/a", 1⟩, ⟨"other/b", 2⟩] "docs").bucket
        = ([⟨"docs/a", 1⟩, ⟨"other/b", 2⟩] : List S3Object).filter
            (fun o => !(keyMatches (some (stripSlashes "docs")) o.key)) :=
  ⟨by decide, by decide,
   (c4_delete_prefix_batches [⟨"docs/a", 1⟩, ⟨"other/b", 2⟩] "docs"
      (by decide) (by decide)).1,
   (c4_delete_prefix_batches [⟨"docs/a", 1⟩, ⟨"other/b", 2⟩] "docs"
      (by decide) (by decide)).2.1⟩

theorem docPrefix_strip_ne (document_id : String) :
    stripSlashes (docPrefixFor document_id) ≠ "" := by
  intro h
  have h2 : pyStripChars (fun c => c == '/') (docPrefixFor document_id).data
      = [] := string_eq_empty_iff.mp h
  have hdata : (docPrefixFor document_id).data
      = 'd' :: ("ocuments/".data ++ document_id.data) := by
    show ("documents/" ++ document_id).data = _
    rw [string_data_append]
    rfl
  rw [hdata] at h2
  exact pyStripChars_ne_nil_of_head (by decide) h2

/-- C8: the DELETE /api/v1/documents/{id} handler answers 404 exactly when
`delete_prefix` over `documents/<id>` reports zero deleted objects, and a
success message otherwise (the guard of `delete_prefix` can never fire here
since the prefix starts with a non-slash character). -/
theorem c8_delete_document_404 (document_id : String) (b : List S3Object) :
    ((delete_document document_id b).1 = DeleteDocumentResponse.notFound
      ↔ ( delete_prefix b (docPrefixFor document_id)).outcome = .ok 0)
    ∧ ((delete_document document_id b).1 = DeleteDocumentResponse.notFound
      ∨ (delete_document document_id b).1
          = DeleteDocumentResponse.ok "Document deleted successfully") := by
  have hne := docPrefix_strip_ne document_id
  have hred : delete_prefix b (docPrefixFor document_id) =
      { outcome := .ok (( delete_prefix_go (stripSlashes (docPrefixFor
            document_id)) (b.length + 1) b 0 []).1)
        bucket := ( delete_prefix_go (stripSlashes (docPrefixFor
            document_id)) (b.length + 1) b 0 []).2.1
        requests := ( delete_prefix_go (stripSlashes (docPrefixFor
            document_id)) (b.length + 1) b 0 []).2.2 } := by
    simp only [ delete_prefix, if_neg hne]
  by_cases h0 : ( delete_prefix_go (stripSlashes (docPrefixFor document_id))
      (b.length + 1) b 0 []).1 = 0
  · simp [delete_document, hred, h0]
  · simp [delete_document, hred, h0]

/-- C2: `upload_file` raises the storage error before any remote bucket call
— no request is issued and the bucket is unchanged — both for zero-length
content and for a missing or empty filename. -/
theorem c2_upload_rejects_before_remote (cfg : ServiceConfig)
    (file : UploadFileModel) (dp : Option String)
    (md : List (String × String)) (b : List S3Object)
    (h : file.content = [] ∨ pyTruthy file.filename = false) :
    (upload_file cfg file dp md b).result.isOk = false
    ∧ (upload_file cfg file dp md b).bucket = b
    ∧ (upload_file cfg file dp md b).requests = [] := by
  by_cases hf : pyTruthy file.filename = true
  · have hc : file.content = [] := by
      rcases h with h | h
      · exact h
      · rw [h] at hf; cases hf
    have hres : upload_file cfg file dp md b =
        { result := .error ⟨"El archivo está vacío. Nada que subir al bucket."⟩
          bucket := b
          requests := [] } := by
      simp only [upload_file]
      rw [if_neg (by rw [hf]; decide)]
      rw [hc]
      rfl
    rw [hres]
    exact ⟨rfl, rfl, rfl⟩
  · have hf2 : (!(pyTruthy file.filename)) = true := by
      cases hx : pyTruthy file.filename
      · rfl
      · exact absurd hx hf
    have hres : upload_file cfg file dp md b =
        { result := .error
            ⟨"El archivo proporcionado no tiene nombre válido."⟩
          bucket := b
          requests := [] } := by
      simp only [upload_file]
      rw [if_pos hf2]
    rw [hres]
    exact ⟨rfl, rfl, rfl⟩

/-- Witness for C2 at a concrete zero-length upload. -/
theorem c2_upload_rejects_before_remote_witness :
    (upload_file ⟨"bucket", none⟩ ⟨some "a.txt", [], none⟩ none []
        []).result.isOk = false
    ∧ (upload_file ⟨"bucket", none⟩ ⟨some "a.txt", [], none⟩ none []
        []).bucket = []
    ∧ (upload_file ⟨"bucket", none⟩ ⟨some "a.txt", [], none⟩ none []
        []).requests = [] :=
  c2_upload_rejects_before_remote ⟨"bucket", none⟩ ⟨some "a.txt", [], none⟩
    none [] [] (Or.inl rfl)
